import Mathlib

/-!
# vmem: binary image to Verilog memory file (util/vmem/main.c)

A shallow embedding of `main` of `util/vmem/main.c` and of the C library calls
it makes, followed by theorems about it.

Conventions of the embedding.

* A C string is the list of its characters before the terminating NUL.
* A byte of the input file is a `Fin 256`, the value `fgetc` delivers.
* `unsigned int` is 32 bits wide; values are natural numbers reduced explicitly.
* What the program reads but never wrote is a field of `Env`: the result of
  `malloc`, the bytes that follow the two characters `strncpy` stores in
  `high_addr` and in `low_addr` (neither array is initialised and `strncpy`
  writes no terminator when the source is at least as long as the count), and
  the bytes `printf` finds behind `output_file_name` after `free`.
* `main` and `outputFileName` describe the runs in which every store has room,
  the `sprintf` of line 80 formats from left to right over its own argument
  and every read of the input succeeds.  `run` and `deriveName` keep all
  three: a store past the end of `start_addr` or of the block of line 72
  ends the description (`Outcome.overrun`), since its effect depends on the
  memory layout, and a read that fails keeps the loop of lines 93-99 going.
  `run_of_benign` relates the two.  What a buffer holds and what is stored
  into it are counted by `START_ADDR_SIZE`, `mallocSize` and `storedBytes`.
-/

namespace Vmem

/-- A byte of a file, as delivered by `fgetc`. -/
abbrev Byte := Fin 256

/-- A C string without its terminator. -/
abbrev CString := List Char

/-! ## Constants of `main` (lines 33-40) -/

def START_ADDR_OPTION : CString := "--start-addr".toList
def DEFAULT_START_ADDR : Nat := 0x0000
def NMI_VECTOR : CString := "00 90".toList
def INT_VECTOR : CString := "00 A0".toList
def VECTOR_HEADER : CString := "@FFFA //Interrupt and Reset Vectors:\n".toList
def NMI_VECTOR_COMMENT : CString := "//NMI Vector\n".toList
def RESET_VECTOR_COMMENT : CString := "//RESET Vector\n".toList
def INT_VECTOR_COMMENT : CString := "//INTERRUPT Vector\n".toList

/-! ## The C library calls used by `main` -/

/-- The digit `printf` writes for the value `d < 16` under `%x`. -/
def hexDigit (d : Nat) : Char :=
  if d < 10 then Char.ofNat (48 + d) else Char.ofNat (87 + d)

/-- The digits of `n` in base 16, most significant first, written into `acc`;
`fuel` bounds the number of digits. -/
def hexDigitsAux : Nat → Nat → List Char → List Char
  | 0, _, acc => acc
  | fuel + 1, n, acc =>
    if n < 16 then hexDigit n :: acc
    else hexDigitsAux fuel (n / 16) (hexDigit (n % 16) :: acc)

/-- The conversion `%x` of an `unsigned int`: at most eight digits. -/
def hexDigits (n : Nat) : List Char := hexDigitsAux 8 (n % 2 ^ 32) []

/-- The conversion `%0Wx`: `%x` padded on the left with zeros to `width`. -/
def sprintf_0x (width n : Nat) : CString :=
  List.replicate (width - (hexDigits n).length) '0' ++ hexDigits n

/-- `isspace` in the C locale. -/
def isspace (c : Char) : Bool :=
  c.toNat = 32 || (9 ≤ c.toNat && c.toNat ≤ 13)

/-- `isxdigit`. -/
def isxdigit (c : Char) : Bool :=
  (48 ≤ c.toNat && c.toNat ≤ 57) || (97 ≤ c.toNat && c.toNat ≤ 102) ||
    (65 ≤ c.toNat && c.toNat ≤ 70)

/-- The value of a hexadecimal digit. -/
def xdigitVal (c : Char) : Nat :=
  if c.toNat ≤ 57 then c.toNat - 48
  else if 97 ≤ c.toNat then c.toNat - 87
  else c.toNat - 55

/-- The number a run of hexadecimal digits denotes. -/
def hexValue (ds : List Char) : Nat :=
  ds.foldl (fun a c => 16 * a + xdigitVal c) 0

/-- An optional sign in front of a number: whether it is `-`, and the text
behind it. -/
def scanSign (s : CString) : Bool × CString :=
  match s with
  | [] => (false, [])
  | c :: t => if c = '-' then (true, t) else if c = '+' then (false, t) else (false, s)

/-- An optional `0x` or `0X` in front of the digits: whether it is there, and
the text behind it. -/
def scanBase (s : CString) : Bool × CString :=
  match s with
  | c :: x :: t => if c = '0' ∧ (x = 'x' ∨ x = 'X') then (true, t) else (false, s)
  | _ => (false, s)

/-- Result of `sscanf(s, "%x", &n)`: `some n` when it returns 1, `none` when it
returns 0 or `EOF`.  White space is skipped, a sign and a `0x` or `0X` prefix
are accepted, then the longest run of hexadecimal digits is converted.  As in
the GNU and BSD libraries a `0x` with no digit behind it converts as `0`, the
digits are converted as an `unsigned long` of 64 bits that saturates, and the
result is stored in the 32-bit object. -/
def sscanf_x (s : CString) : Option Nat :=
  let signed := scanSign (s.dropWhile isspace)
  let based := scanBase signed.2
  let ds := based.2.takeWhile isxdigit
  if ds = [] ∧ based.1 = false then none
  else
    let v := hexValue ds
    let u := if 2 ^ 64 ≤ v then 2 ^ 64 - 1
             else if signed.1 then (2 ^ 64 - v) % 2 ^ 64 else v
    some (u % 2 ^ 32)

/-- Result of `sscanf(s, "%[^.]", dst)`: the longest run of characters other
than `.` at the start of `s`, stored when it is not empty; an empty run is a
matching failure and nothing is stored. -/
def sscanf_not_dot (s : CString) : Option CString :=
  let run := s.takeWhile (fun c => c != '.')
  if run = [] then none else some run

/-! ## What the program reads without having written it -/

/-- The part of an execution that the program text does not determine. -/
structure Env where
  /-- Whether `malloc` (line 72) returns a non-null pointer. -/
  malloc_ok : Bool
  /-- Bytes found behind the two characters stored in `high_addr`, up to the
  first NUL; empty when `high_addr[2]` happens to hold NUL. -/
  high_addr_rest : List Char
  /-- Bytes found behind the two characters stored in `low_addr`, up to the
  first NUL; empty when `low_addr[2]` happens to hold NUL. -/
  low_addr_rest : List Char
  /-- Bytes `printf` reads through `output_file_name` after `free`
  (lines 118 and 121). -/
  freed_name : List Char
  deriving DecidableEq

/-! ## Files -/

/-- The files the program can reach: contents by path, and the paths that
`fopen` refuses to open for reading or for writing. -/
structure FileSys where
  files : List (CString × List Byte)
  unreadable : List CString
  unwritable : List CString
  deriving DecidableEq

/-- Contents of the file at `path`, if there is one. -/
def FileSys.contents (fs : FileSys) (path : CString) : Option (List Byte) :=
  (fs.files.find? (fun e => e.1 = path)).map (fun e => e.2)

/-- Whether `fopen(path, "rb")` returns a stream. -/
def FileSys.canRead (fs : FileSys) (path : CString) : Bool :=
  (fs.contents path).isSome && !(fs.unreadable.contains path)

/-- The file system after the file at `path` has been given contents `data`. -/
def FileSys.store (fs : FileSys) (path : CString) (data : List Byte) : FileSys :=
  { fs with files := (path, data) :: fs.files.filter (fun e => e.1 ≠ path) }

/-- Result of `fopen(path, "w")`: the file is created or truncated, unless the
path cannot be opened for writing. -/
def FileSys.fopen_w (fs : FileSys) (path : CString) : Option FileSys :=
  if fs.unwritable.contains path then none else some (fs.store path [])

/-- The byte a character of the output text is stored as. -/
def charByte (c : Char) : Byte := Fin.ofNat c.toNat

/-! ## The conversion (lines 91-113) -/

/-- Lines 92-99: one `fprintf(out_file, "%02x\n", num)` for each byte `fgetc`
delivers before end of file. -/
def dataLines : List Byte → List Char
  | [] => []
  | num :: rest => (sprintf_0x 2 num.val ++ ['\n']) ++ dataLines rest

/-- Lines 109-111: the two `strncpy` calls and the `fprintf` of the RESET
vector; `%s` prints each field up to the first NUL found. -/
def resetLine (start_addr : CString) (env : Env) : List Char :=
  let high_addr := start_addr.take 2 ++ env.high_addr_rest
  let low_addr := (start_addr.drop 2).take 2 ++ env.low_addr_rest
  low_addr ++ [' '] ++ high_addr ++ [' '] ++ RESET_VECTOR_COMMENT

/-- Lines 106-113: the vector block. -/
def vectorBlock (start_addr : CString) (env : Env) : List Char :=
  VECTOR_HEADER
    ++ (NMI_VECTOR ++ [' '] ++ NMI_VECTOR_COMMENT)
    ++ resetLine start_addr env
    ++ (INT_VECTOR ++ [' '] ++ INT_VECTOR_COMMENT)

/-- Lines 91-113: everything written to `out_file`. -/
def convert (image : List Byte) (start_addr : CString) (env : Env) : List Char :=
  dataLines image ++ vectorBlock start_addr env

/-! ## Start address and output name (lines 55-80) -/

/-- The message of line 66. -/
def startAddrWarning (arg : CString) : List Char :=
  "Unable to convert start address: ".toList ++ arg ++ ", using default 0x0000.\n".toList

/-- Lines 56-69: the contents of `start_addr` and what is printed meanwhile. -/
def getStartAddr (argv : List CString) : CString × List Char :=
  let start_addr := sprintf_0x 4 DEFAULT_START_ADDR
  if 4 ≤ argv.length then
    if argv.getD 2 [] = START_ADDR_OPTION then
      match sscanf_x (argv.getD 3 []) with
      | some start_addr_num => (sprintf_0x 4 start_addr_num, [])
      | none => (start_addr, startAddrWarning (argv.getD 3 []))
    else (start_addr, [])
  else (start_addr, [])

/-- Lines 78-80: `strcpy`, `sscanf` with `%[^.]` onto the name itself, then
`sprintf` of `%s.vmem` onto the name itself, in a block with room for the
stores and with a `sprintf` that formats from left to right; `deriveName` keeps
the size of the block and the other way `sprintf` can treat the overlap. -/
def outputFileName (path : CString) : CString :=
  let copied := path
  let truncated :=
    match sscanf_not_dot copied with
    | some run => run
    | none => copied
  truncated ++ ".vmem".toList

/-! ## The program -/

/-- What a run leaves behind: exit status, standard output, files. -/
structure Result where
  status : Int
  stdout : List Char
  fs : FileSys
  deriving DecidableEq

/-- The function `main` (lines 31-123); `argv` holds `argc` strings.  The input
is read (line 94) after the output has been opened (line 83), so the image is
what the input path holds then.  These are the runs in which the stores have
room and every read succeeds until the end of the file; `run` has the others. -/
def main (argv : List CString) (fs : FileSys) (env : Env) : Result :=
  if argv.length < 2 then
    { status := 0, stdout := "Usage: memv yourcode.bin\n".toList, fs := fs }
  else
    let path := argv.getD 1 []
    if fs.canRead path = false then
      { status := 0, stdout := "no such file as: ".toList ++ path ++ ['\n'], fs := fs }
    else
      let sa := getStartAddr argv
      if env.malloc_ok = false then
        { status := 0
          stdout := sa.2 ++ "Error: unable to generate output file name.\n".toList
          fs := fs }
      else
        let output_file_name := outputFileName path
        match fs.fopen_w output_file_name with
        | none =>
          { status := 0
            stdout := sa.2 ++ "unable to open output file for writing.\n".toList
            fs := fs }
        | some fs1 =>
          let image := (fs1.contents path).getD []
          let text := convert image sa.1 env
          { status := 0
            stdout := sa.2 ++ "Finished writing ".toList ++ env.freed_name ++ ['\n']
            fs := fs1.store output_file_name (text.map charByte) }

/-! ## Reading the output back as lines -/

/-- The lines of a text: the runs of characters between newlines. -/
def lines : List Char → List (List Char)
  | [] => []
  | c :: cs =>
    if c = '\n' then [] :: lines cs
    else
      match lines cs with
      | [] => [[c]]
      | l :: ls => (c :: l) :: ls

/-! ## The spec's notions, for comparison with the code -/

/-- The sixteen lowercase hexadecimal digits, by value. -/
def lowerHexDigit (d : Nat) : Char := "0123456789abcdef".toList.getD d '0'

/-- The sixteen uppercase hexadecimal digits, by value. -/
def upperHexDigit (d : Nat) : Char := "0123456789ABCDEF".toList.getD d '0'

/-- A byte as two lowercase hexadecimal digits, zero-padded. -/
def hexByte (b : Nat) : List Char := [lowerHexDigit (b / 16), lowerHexDigit (b % 16)]

/-- The four hexadecimal digits of a 16-bit value, each in the letter case the
flag at its position asks for (`true` for uppercase). -/
def fourDigits (upper : Fin 4 → Bool) (a : Nat) : CString :=
  [ (if upper 0 then upperHexDigit (a / 4096) else lowerHexDigit (a / 4096)),
    (if upper 1 then upperHexDigit (a / 256 % 16) else lowerHexDigit (a / 256 % 16)),
    (if upper 2 then upperHexDigit (a / 16 % 16) else lowerHexDigit (a / 16 % 16)),
    (if upper 3 then upperHexDigit (a % 16) else lowerHexDigit (a % 16)) ]

/-- The output name as the spec words it: the part of the path before its first
`.`, or the whole path when it has none, followed by `.vmem`. -/
def claimedOutputName (path : CString) : CString :=
  path.takeWhile (fun c => c != '.') ++ ".vmem".toList

/-- A file system holding the one-byte image `a9` at `prog.bin`. -/
def sampleFiles : FileSys := ⟨[("prog.bin".toList, [0xa9])], [], []⟩

/-- An environment in which `malloc` succeeds, with the given bytes behind the
two fields of the RESET vector. -/
def Env.withRests (high low : List Char) : Env := ⟨true, high, low, []⟩

/-! ## Sizes of the buffers -/

/-- The size of `start_addr` (line 56, `char start_addr[5]`). -/
def START_ADDR_SIZE : Nat := 5

/-- The number of bytes a `sprintf` or `strcpy` of the text `s` stores: the
characters and the terminating NUL. -/
def storedBytes (s : CString) : Nat := s.length + 1

/-- The argument of `malloc` at line 72, `strlen(argv[1] + 5)`: the length of
what starts five characters into the path.  For a path of fewer than five
characters the pointer is past the terminator of the path, and `strlen` counts
`beyond`, the bytes it finds there. -/
def mallocSize (path : CString) (beyond : Nat) : Nat :=
  if 5 ≤ path.length then (path.drop 5).length else beyond

/-! ## The run with its sizes, its overlap and its reads -/

/-- The stream `in_file` as lines 94-95 see it: the bytes `fgetc` still
delivers, and whether the read behind them fails, so that `fgetc` returns `EOF`
with the error indicator set and `feof` stays false (the input path is a
directory), instead of reaching the end of the file. -/
structure InFile where
  pending : List Byte
  read_fails : Bool
  deriving DecidableEq

/-- Lines 92-99, for at most `fuel` iterations: `fgetc`, leave the loop when
`feof` holds, `fprintf` of `%02x` otherwise; a failed read delivers `EOF`, the
`int` -1, which `%02x` prints as `ffffffff`.  The result is the text written
when the loop is left, `none` when the iterations run out before that. -/
def writeContents : Nat → InFile → Option (List Char)
  | 0, _ => none
  | fuel + 1, f =>
    match f.pending with
    | num :: rest =>
      (writeContents fuel ⟨rest, f.read_fails⟩).map
        (fun written => (sprintf_0x 2 num.val ++ ['\n']) ++ written)
    | [] =>
      if f.read_fails then
        (writeContents fuel f).map
          (fun written => (sprintf_0x 2 (2 ^ 32 - 1) ++ ['\n']) ++ written)
      else some []

/-- What the C library and the file system decide in a run, besides `Env`. -/
structure Host where
  /-- Bytes `strlen` counts from `argv[1] + 5` when the path has fewer than five
  characters. -/
  beyond : Nat
  /-- Bytes usable in the block of line 72 past those asked for. -/
  slack : Nat
  /-- Whether `sprintf` empties its destination before it formats, as a fortified
  build does, so that `%s` of the destination itself prints nothing. -/
  clears_first : Bool
  /-- Whether the read behind the bytes of the input fails. -/
  read_fails : Bool
  deriving DecidableEq

/-- Lines 72 and 78-80 with the size of the block kept: the name that reaches
`fopen`, or `none` when `strcpy` or `sprintf` stores past the end of the block.
The `sscanf` of line 79 copies a run of the name onto itself and shortens it. -/
def deriveName (path : CString) (p : Host) : Option CString :=
  let block := mallocSize path p.beyond + p.slack
  if block < storedBytes path then none
  else
    let truncated :=
      match sscanf_not_dot path with
      | some run => run
      | none => path
    let name := if p.clears_first then ".vmem".toList else truncated ++ ".vmem".toList
    if block < storedBytes name then none else some name

/-- How a run ends when it ends: `main` returns, or a store goes past the end of
`start_addr` or of the block of line 72, after which the source settles
nothing. -/
inductive Outcome where
  | returned (r : Result)
  | overrun
  deriving DecidableEq

/-- The function `main` (lines 31-123) with the sizes of its buffers, the
overlap of line 80 and the reads of the input kept: the outcome of the run
within `fuel` iterations of the loop of lines 93-99, `none` when the loop has
not been left by then. -/
def run (fuel : Nat) (argv : List CString) (fs : FileSys) (env : Env) (p : Host) :
    Option Outcome :=
  if argv.length < 2 then
    some (.returned { status := 0, stdout := "Usage: memv yourcode.bin\n".toList, fs := fs })
  else
    let path := argv.getD 1 []
    if fs.canRead path = false then
      some (.returned
        { status := 0, stdout := "no such file as: ".toList ++ path ++ ['\n'], fs := fs })
    else
      let sa := getStartAddr argv
      if START_ADDR_SIZE < storedBytes sa.1 then some .overrun
      else if env.malloc_ok = false then
        some (.returned
          { status := 0
            stdout := sa.2 ++ "Error: unable to generate output file name.\n".toList
            fs := fs })
      else
        match deriveName path p with
        | none => some .overrun
        | some output_file_name =>
          match fs.fopen_w output_file_name with
          | none =>
            some (.returned
              { status := 0
                stdout := sa.2 ++ "unable to open output file for writing.\n".toList
                fs := fs })
          | some fs1 =>
            match writeContents fuel ⟨(fs1.contents path).getD [], p.read_fails⟩ with
            | none => none
            | some written =>
              some (.returned
                { status := 0
                  stdout := sa.2 ++ "Finished writing ".toList ++ env.freed_name ++ ['\n']
                  fs := fs1.store output_file_name
                    ((written ++ vectorBlock sa.1 env).map charByte) })

/-- A host whose reads succeed and whose `sprintf` formats from left to
right, with `slack` bytes usable past those asked of `malloc`. -/
def Host.plain (slack : Nat) : Host := ⟨0, slack, false, false⟩

/-- A host like `Host.plain` whose `sprintf` empties its destination first. -/
def Host.fortified (slack : Nat) : Host := ⟨0, slack, true, false⟩

/-- A host like `Host.plain` on which the read of the input fails. -/
def Host.failingRead (slack : Nat) : Host := ⟨0, slack, false, true⟩

/-- A file system in which `src` can be opened for reading and delivers no byte. -/
def directoryFiles : FileSys := ⟨[("src".toList, [])], [], []⟩

/-- A file system holding a one-byte image at a path of 28 characters. -/
def longNameFiles : FileSys := ⟨[("my_6502_test_program_v02.bin".toList, [0xa9])], [], []⟩

/-! ## Formatting in base 16 -/

theorem hexDigit_eq_lower (d : Nat) (h : d < 16) : hexDigit d = lowerHexDigit d := by
  interval_cases d <;> decide

theorem hexDigit_zero : hexDigit 0 = '0' := by decide

theorem sprintf_02x_byte (b : Nat) (h : b < 256) :
    sprintf_0x 2 b = [hexDigit (b / 16), hexDigit (b % 16)] := by
  have hm : b % 2 ^ 32 = b := Nat.mod_eq_of_lt (by omega)
  unfold sprintf_0x hexDigits
  rw [hm]
  by_cases h1 : b < 16
  · have h2 : b / 16 = 0 := by omega
    have h3 : b % 16 = b := by omega
    simp [hexDigitsAux, h1, h2, h3, hexDigit_zero, List.replicate]
  · have h2 : b / 16 < 16 := by omega
    simp [hexDigitsAux, h1, h2]

theorem sprintf_04x_word (a : Nat) (h : a < 65536) :
    sprintf_0x 4 a
      = [hexDigit (a / 4096), hexDigit (a / 256 % 16), hexDigit (a / 16 % 16), hexDigit (a % 16)] := by
  have hm : a % 2 ^ 32 = a := Nat.mod_eq_of_lt (by omega)
  unfold sprintf_0x hexDigits
  rw [hm]
  by_cases h1 : a < 16
  · have e1 : a / 4096 = 0 := by omega
    have e2 : a / 256 % 16 = 0 := by omega
    have e3 : a / 16 % 16 = 0 := by omega
    have e4 : a % 16 = a := by omega
    simp [hexDigitsAux, h1, e1, e2, e3, e4, hexDigit_zero, List.replicate]
  · by_cases h2 : a / 16 < 16
    · have e1 : a / 4096 = 0 := by omega
      have e2 : a / 256 % 16 = 0 := by omega
      have e3 : a / 16 % 16 = a / 16 := by omega
      simp [hexDigitsAux, h1, h2, e1, e2, e3, hexDigit_zero, List.replicate]
    · by_cases h3 : a / 16 / 16 < 16
      · have e1 : a / 4096 = 0 := by omega
        have e2 : a / 256 % 16 = a / 16 / 16 := by omega
        simp [hexDigitsAux, h1, h2, h3, e1, e2, hexDigit_zero, List.replicate]
      · have h4 : a / 16 / 16 / 16 < 16 := by omega
        have e1 : a / 4096 = a / 16 / 16 / 16 := by omega
        have e2 : a / 256 % 16 = a / 16 / 16 % 16 := by omega
        simp [hexDigitsAux, h1, h2, h3, h4, e1, e2]


/-! ## Lines of the output -/

theorem lines_line_append (l rest : List Char) (h : ∀ c ∈ l, c ≠ '\n') :
    lines (l ++ '\n' :: rest) = l :: lines rest := by
  induction l with
  | nil => simp [lines]
  | cons c l ih =>
    have hc : c ≠ '\n' := h c (by simp)
    have hl : ∀ d ∈ l, d ≠ '\n' := fun d hd => h d (by simp [hd])
    simp [lines, hc, ih hl]

theorem lines_cons_of_ne (c : Char) (cs : List Char) (hc : c ≠ '\n') :
    lines (c :: cs) = match lines cs with
      | [] => [[c]]
      | l :: ls => (c :: l) :: ls := by
  simp [lines, hc]

theorem lines_snoc_ne_nil (a : List Char) : lines (a ++ ['\n']) ≠ [] := by
  induction a with
  | nil => simp [lines]
  | cons c a ih =>
    by_cases hc : c = '\n'
    · simp [lines, hc]
    · rw [List.cons_append, lines_cons_of_ne _ _ hc]
      split <;> simp

theorem lines_append_after_newline (a b : List Char) :
    lines (a ++ '\n' :: b) = lines (a ++ ['\n']) ++ lines b := by
  induction a with
  | nil => simp [lines]
  | cons c a ih =>
    by_cases hc : c = '\n'
    · simp [lines, hc, ih]
    · rw [List.cons_append, List.cons_append, lines_cons_of_ne _ _ hc,
        lines_cons_of_ne _ _ hc, ih]
      cases hs : lines (a ++ ['\n']) with
      | nil => exact absurd hs (lines_snoc_ne_nil a)
      | cons l ls => simp

theorem hexDigit_ne_newline (d : Nat) (h : d < 16) : hexDigit d ≠ '\n' := by
  interval_cases d <;> decide

theorem lines_dataLines_append (image : List Byte) (rest : List Char) :
    lines (dataLines image ++ rest)
      = image.map (fun b => sprintf_0x 2 b.val) ++ lines rest := by
  induction image with
  | nil => simp [dataLines]
  | cons b image ih =>
    have hb : ∀ c ∈ sprintf_0x 2 b.val, c ≠ '\n' := by
      intro c hc
      rw [sprintf_02x_byte b.val b.isLt] at hc
      simp only [List.mem_cons, List.mem_singleton, List.not_mem_nil, or_false] at hc
      rcases hc with rfl | rfl
      · exact hexDigit_ne_newline _ (by have := b.isLt; omega)
      · exact hexDigit_ne_newline _ (by omega)
    simp only [dataLines, List.append_assoc, List.singleton_append, List.map_cons,
      List.cons_append]
    rw [lines_line_append _ _ hb]
    simp [ih]


theorem lines_vectorBlock (start_addr : CString) (env : Env) :
    lines (vectorBlock start_addr env)
      = "@FFFA //Interrupt and Reset Vectors:".toList :: "00 90 //NMI Vector".toList
          :: (lines (resetLine start_addr env) ++ ["00 A0 //INTERRUPT Vector".toList]) := by
  have e : vectorBlock start_addr env
      = "@FFFA //Interrupt and Reset Vectors:".toList ++ '\n' ::
          ("00 90 //NMI Vector".toList ++ '\n' ::
            ((((start_addr.drop 2).take 2 ++ env.low_addr_rest) ++ [' ']
                ++ (start_addr.take 2 ++ env.high_addr_rest) ++ [' ']
                ++ "//RESET Vector".toList) ++ '\n' ::
              ("00 A0 //INTERRUPT Vector".toList ++ '\n' :: []))) := by
    simp [vectorBlock, resetLine, VECTOR_HEADER, NMI_VECTOR, NMI_VECTOR_COMMENT,
      RESET_VECTOR_COMMENT, INT_VECTOR, INT_VECTOR_COMMENT]
  have r : resetLine start_addr env
      = (((start_addr.drop 2).take 2 ++ env.low_addr_rest) ++ [' ']
                ++ (start_addr.take 2 ++ env.high_addr_rest) ++ [' ']
                ++ "//RESET Vector".toList) ++ ['\n'] := by
    simp [resetLine, RESET_VECTOR_COMMENT]
  rw [e, lines_line_append _ _ (by decide), lines_line_append _ _ (by decide),
    lines_append_after_newline,
    lines_line_append "00 A0 //INTERRUPT Vector".toList [] (by decide), r]
  simp [lines]

theorem isxdigit_facts (c : Char) (h : isxdigit c = true) :
    isspace c = false ∧ c ≠ '-' ∧ c ≠ '+' ∧ c ≠ 'x' ∧ c ≠ 'X' := by
  refine ⟨?_, ?_, ?_, ?_, ?_⟩
  · simp only [isxdigit, Bool.or_eq_true, Bool.and_eq_true, decide_eq_true_eq] at h
    simp only [isspace, Bool.or_eq_false_iff, decide_eq_false_iff_not, Bool.and_eq_false_iff]
    omega
  all_goals
    intro e
    subst e
    revert h
    decide

theorem scanBase_of_xdigits (c : Char) (t : CString) (h : ∀ d ∈ t, isxdigit d = true) :
    scanBase (c :: t) = (false, c :: t) := by
  cases t with
  | nil => simp [scanBase]
  | cons x w =>
    have hx := isxdigit_facts x (h x (by simp))
    simp [scanBase, hx.2.2.2.1, hx.2.2.2.2]

theorem sscanf_x_of_xdigits (ds : CString) (hne : ds ≠ []) (h : ∀ d ∈ ds, isxdigit d = true)
    (hv : hexValue ds < 2 ^ 32) :
    sscanf_x ds = some (hexValue ds)
      ∧ sscanf_x ('0' :: 'x' :: ds) = some (hexValue ds)
      ∧ sscanf_x ('0' :: 'X' :: ds) = some (hexValue ds) := by
  have ht : ds.takeWhile isxdigit = ds := by
    rw [List.takeWhile_eq_self_iff]
    exact h
  have h64 : ¬ 2 ^ 64 ≤ hexValue ds := by omega
  have hm : hexValue ds % 2 ^ 32 = hexValue ds := Nat.mod_eq_of_lt hv
  refine ⟨?_, ?_, ?_⟩
  · cases ds with
    | nil => exact absurd rfl hne
    | cons c t =>
      have hc := isxdigit_facts c (h c (by simp))
      have hd : (c :: t).dropWhile isspace = c :: t := by
        simp [List.dropWhile_cons, hc.1]
      have hs : scanSign (c :: t) = (false, c :: t) := by
        simp [scanSign, hc.2.1, hc.2.2.1]
      have hb := scanBase_of_xdigits c t (fun d hd => h d (by simp [hd]))
      unfold sscanf_x
      rw [hd, hs]
      simp only []
      rw [hb]
      simp only [ht]
      simp
      rw [if_neg (by omega)]
      omega
  · unfold sscanf_x
    have hd : ('0' :: 'x' :: ds).dropWhile isspace = '0' :: 'x' :: ds := by
      rw [List.dropWhile_cons]
      simp [isspace]
    have hs : scanSign ('0' :: 'x' :: ds) = (false, '0' :: 'x' :: ds) := by
      simp [scanSign]
    have hb : scanBase ('0' :: 'x' :: ds) = (true, ds) := by
      simp [scanBase]
    rw [hd, hs]
    simp only []
    rw [hb]
    simp only [ht]
    simp
    rw [if_neg (by omega)]
    omega
  · unfold sscanf_x
    have hd : ('0' :: 'X' :: ds).dropWhile isspace = '0' :: 'X' :: ds := by
      rw [List.dropWhile_cons]
      simp [isspace]
    have hs : scanSign ('0' :: 'X' :: ds) = (false, '0' :: 'X' :: ds) := by
      simp [scanSign]
    have hb : scanBase ('0' :: 'X' :: ds) = (true, ds) := by
      simp [scanBase]
    rw [hd, hs]
    simp only []
    rw [hb]
    simp only [ht]
    simp
    rw [if_neg (by omega)]
    omega

theorem xdigit_of_digit (d : Nat) (h : d < 16) :
    isxdigit (lowerHexDigit d) = true ∧ xdigitVal (lowerHexDigit d) = d
      ∧ isxdigit (upperHexDigit d) = true ∧ xdigitVal (upperHexDigit d) = d := by
  interval_cases d <;> decide

theorem sscanf_x_fourDigits (upper : Fin 4 → Bool) (a : Nat) (h : a < 65536) :
    sscanf_x (fourDigits upper a) = some a
      ∧ sscanf_x ('0' :: 'x' :: fourDigits upper a) = some a
      ∧ sscanf_x ('0' :: 'X' :: fourDigits upper a) = some a := by
  have h3 := xdigit_of_digit (a / 4096) (by omega)
  have h2 := xdigit_of_digit (a / 256 % 16) (by omega)
  have h1 := xdigit_of_digit (a / 16 % 16) (by omega)
  have h0 := xdigit_of_digit (a % 16) (by omega)
  have hx : ∀ d ∈ fourDigits upper a, isxdigit d = true := by
    intro d hd
    simp only [fourDigits, List.mem_cons, List.mem_singleton, List.not_mem_nil, or_false] at hd
    rcases hd with rfl | rfl | rfl | rfl <;> split <;> simp [h3, h2, h1, h0]
  have hv : hexValue (fourDigits upper a) = a := by
    have e : ∀ (u : Bool) (d : Nat), d < 16 →
        xdigitVal (if u then upperHexDigit d else lowerHexDigit d) = d := by
      intro u d hd
      have := xdigit_of_digit d hd
      cases u <;> simp [this]
    simp only [hexValue, fourDigits, List.foldl_cons, List.foldl_nil]
    rw [e _ _ (by omega), e _ _ (by omega), e _ _ (by omega), e _ _ (by omega)]
    omega
  have := sscanf_x_of_xdigits (fourDigits upper a) (by simp [fourDigits]) hx (by rw [hv]; omega)
  rw [hv] at this
  exact this

/-! ## Paths through `main` -/

theorem main_usage (argv : List CString) (fs : FileSys) (env : Env)
    (h : argv.length < 2) :
    main argv fs env
      = { status := 0, stdout := "Usage: memv yourcode.bin\n".toList, fs := fs } := by
  unfold main
  rw [if_pos h]

theorem main_unreadable (argv : List CString) (fs : FileSys) (env : Env)
    (h : ¬ argv.length < 2) (hr : fs.canRead (argv.getD 1 []) = false) :
    main argv fs env
      = { status := 0
          stdout := "no such file as: ".toList ++ argv.getD 1 [] ++ ['\n']
          fs := fs } := by
  unfold main
  rw [if_neg h]
  simp only []
  rw [if_pos hr]

theorem main_alloc_failed (argv : List CString) (fs : FileSys) (env : Env)
    (h : ¬ argv.length < 2) (hr : fs.canRead (argv.getD 1 []) = true)
    (hm : env.malloc_ok = false) :
    main argv fs env
      = { status := 0
          stdout := (getStartAddr argv).2
            ++ "Error: unable to generate output file name.\n".toList
          fs := fs } := by
  unfold main
  rw [if_neg h]
  simp only []
  rw [if_neg (by rw [hr]; decide), if_pos hm]

theorem main_unwritable (argv : List CString) (fs : FileSys) (env : Env)
    (h : ¬ argv.length < 2) (hr : fs.canRead (argv.getD 1 []) = true)
    (hm : env.malloc_ok = true)
    (hw : fs.fopen_w (outputFileName (argv.getD 1 [])) = none) :
    main argv fs env
      = { status := 0
          stdout := (getStartAddr argv).2
            ++ "unable to open output file for writing.\n".toList
          fs := fs } := by
  unfold main
  rw [if_neg h]
  simp only []
  rw [if_neg (by rw [hr]; decide), if_neg (by rw [hm]; decide), hw]

theorem main_converted (argv : List CString) (fs fs1 : FileSys) (env : Env)
    (h : ¬ argv.length < 2) (hr : fs.canRead (argv.getD 1 []) = true)
    (hm : env.malloc_ok = true)
    (hw : fs.fopen_w (outputFileName (argv.getD 1 [])) = some fs1) :
    main argv fs env
      = { status := 0
          stdout := (getStartAddr argv).2 ++ "Finished writing ".toList
            ++ env.freed_name ++ ['\n']
          fs := fs1.store (outputFileName (argv.getD 1 []))
            ((convert ((fs1.contents (argv.getD 1 [])).getD []) (getStartAddr argv).1 env).map
              charByte) } := by
  unfold main
  rw [if_neg h]
  simp only []
  rw [if_neg (by rw [hr]; decide), if_neg (by rw [hm]; decide), hw]

/-! ## The start address -/

theorem getStartAddr_without_option (argv : List CString) (h : argv.length < 4) :
    getStartAddr argv = ("0000".toList, []) := by
  unfold getStartAddr
  rw [if_neg (by omega)]
  decide

theorem getStartAddr_of_some (prog path arg : CString) (rest : List CString) (n : Nat)
    (h : sscanf_x arg = some n) :
    getStartAddr (prog :: path :: START_ADDR_OPTION :: arg :: rest) = (sprintf_0x 4 n, []) := by
  unfold getStartAddr
  rw [if_pos (by simp)]
  simp [h]

theorem getStartAddr_fourDigits (prog path : CString) (rest : List CString)
    (upper : Fin 4 → Bool) (a : Nat) (h : a < 65536) :
    getStartAddr (prog :: path :: START_ADDR_OPTION :: fourDigits upper a :: rest)
        = (sprintf_0x 4 a, [])
      ∧ getStartAddr (prog :: path :: START_ADDR_OPTION :: ('0' :: 'x' :: fourDigits upper a)
          :: rest) = (sprintf_0x 4 a, [])
      ∧ getStartAddr (prog :: path :: START_ADDR_OPTION :: ('0' :: 'X' :: fourDigits upper a)
          :: rest) = (sprintf_0x 4 a, []) := by
  have hs := sscanf_x_fourDigits upper a h
  exact ⟨getStartAddr_of_some _ _ _ _ _ hs.1, getStartAddr_of_some _ _ _ _ _ hs.2.1,
    getStartAddr_of_some _ _ _ _ _ hs.2.2⟩

/-! ## Sizes and injectivity -/

theorem mallocSize_of_long (path : CString) (beyond : Nat) (h : 5 ≤ path.length) :
    mallocSize path beyond + 5 = path.length := by
  unfold mallocSize
  rw [if_pos h, List.length_drop]
  omega

theorem sprintf_04x_length (a : Nat) (h : a < 65536) :
    storedBytes (sprintf_0x 4 a) = START_ADDR_SIZE := by
  rw [sprintf_04x_word a h]
  rfl

theorem hexDigit_inj (d e : Nat) (hd : d < 16) (he : e < 16) (h : hexDigit d = hexDigit e) :
    d = e := by
  have h1 := (xdigit_of_digit d hd).2.1
  have h2 := (xdigit_of_digit e he).2.1
  rw [← hexDigit_eq_lower d hd] at h1
  rw [← hexDigit_eq_lower e he] at h2
  rw [← h1, ← h2, h]

theorem dataLines_length (image : List Byte) : (dataLines image).length = 3 * image.length := by
  induction image with
  | nil => rfl
  | cons b image ih =>
    simp only [dataLines, List.length_append, List.length_cons, List.length_nil, ih,
      sprintf_02x_byte b.val b.isLt]
    omega

theorem dataLines_inj (i1 i2 : List Byte) (h : dataLines i1 = dataLines i2) : i1 = i2 := by
  induction i1 generalizing i2 with
  | nil =>
    cases i2 with
    | nil => rfl
    | cons b t =>
      have := congrArg List.length h
      rw [dataLines_length, dataLines_length] at this
      simp at this
  | cons b1 t1 ih =>
    cases i2 with
    | nil =>
      have := congrArg List.length h
      rw [dataLines_length, dataLines_length] at this
      simp at this
    | cons b2 t2 =>
      simp only [dataLines, sprintf_02x_byte b1.val b1.isLt, sprintf_02x_byte b2.val b2.isLt,
        List.cons_append, List.nil_append, List.cons.injEq, true_and] at h
      obtain ⟨h1, h2, h3⟩ := h
      have e1 := hexDigit_inj _ _ (by have := b1.isLt; omega) (by have := b2.isLt; omega) h1
      have e2 := hexDigit_inj _ _ (by omega) (by omega) h2
      have hb : b1 = b2 := by
        apply Fin.ext
        omega
      rw [hb, ih t2 h3]

theorem vectorBlock_length (a : Nat) (h : a < 65536) (env : Env) :
    (vectorBlock (sprintf_0x 4 a) env).length
      = 102 + env.low_addr_rest.length + env.high_addr_rest.length := by
  rw [sprintf_04x_word a h]
  simp [vectorBlock, resetLine, VECTOR_HEADER, NMI_VECTOR, NMI_VECTOR_COMMENT,
    RESET_VECTOR_COMMENT, INT_VECTOR, INT_VECTOR_COMMENT]
  omega

/-! ## The output name -/

/-- Under the conventions of `outputFileName`: a path that starts with a non-empty run free of `.`
followed by a `.` gives that run followed by `.vmem`; a path with no `.` gives
the whole path followed by `.vmem`; a path whose first character is `.` gives
the whole path followed by `.vmem`. -/
theorem outputFileName_cases :
    (∀ stem rest : CString, stem ≠ [] → (∀ c ∈ stem, c ≠ '.') →
        outputFileName (stem ++ '.' :: rest) = stem ++ ".vmem".toList)
      ∧ (∀ path : CString, (∀ c ∈ path, c ≠ '.') →
        outputFileName path = path ++ ".vmem".toList)
      ∧ (∀ rest : CString,
        outputFileName ('.' :: rest) = '.' :: rest ++ ".vmem".toList) := by
  refine ⟨?_, ?_, ?_⟩
  · intro stem rest hne hs
    have ht : (stem ++ '.' :: rest).takeWhile (fun c => c != '.') = stem := by
      rw [List.takeWhile_append_of_pos (by simpa using hs)]
      simp
    simp [outputFileName, sscanf_not_dot, ht, hne]
  · intro path hp
    have ht : path.takeWhile (fun c => c != '.') = path := by
      rw [List.takeWhile_eq_self_iff]
      simpa using hp
    by_cases hne : path = []
    · simp [outputFileName, sscanf_not_dot, hne]
    · simp [outputFileName, sscanf_not_dot, ht, hne]
  · intro rest
    simp [outputFileName, sscanf_not_dot]

/-- For `./prog.bin` the part before the first `.` is empty, so the claimed name
is `.vmem`; `outputFileName` gives `./prog.bin.vmem`. -/
theorem outputFileName_leading_dot :
    claimedOutputName "./prog.bin".toList = ".vmem".toList
      ∧ outputFileName "./prog.bin".toList = "./prog.bin.vmem".toList
      ∧ outputFileName "./prog.bin".toList ≠ claimedOutputName "./prog.bin".toList := by
  decide

/-- With room in the block for both stores and a `sprintf` that formats from left
to right, the name that reaches `fopen` is `outputFileName`. -/
theorem deriveName_of_room (path : CString) (p : Host)
    (hc : p.clears_first = false)
    (h1 : storedBytes path ≤ mallocSize path p.beyond + p.slack)
    (h2 : storedBytes (outputFileName path) ≤ mallocSize path p.beyond + p.slack) :
    deriveName path p = some (outputFileName path) := by
  unfold deriveName
  simp only []
  rw [if_neg (by omega), hc]
  simp only [Bool.false_eq_true, if_false]
  show (if mallocSize path p.beyond + p.slack < storedBytes (outputFileName path) then none
    else some (outputFileName path)) = some (outputFileName path)
  rw [if_neg (by omega)]

/-! ## The run as a whole -/

/-- Every run that `main` describes ends with exit status 0, whatever the
arguments, the files and the environment. -/
theorem main_status (argv : List CString) (fs : FileSys) (env : Env) :
    (main argv fs env).status = 0 := by
  by_cases h : argv.length < 2
  · rw [main_usage argv fs env h]
  · cases hr : fs.canRead (argv.getD 1 [])
    · rw [main_unreadable argv fs env h hr]
    · cases hm : env.malloc_ok
      · rw [main_alloc_failed argv fs env h hr hm]
      · cases hw : fs.fopen_w (outputFileName (argv.getD 1 []))
        · rw [main_unwritable argv fs env h hr hm hw]
        · rw [main_converted argv fs _ env h hr hm hw]

/-- When the reads succeed, the loop is left after one iteration per byte and one
more, and has written `dataLines`. -/
theorem writeContents_of_eof (image : List Byte) (fuel : Nat) (h : image.length < fuel) :
    writeContents fuel ⟨image, false⟩ = some (dataLines image) := by
  induction image generalizing fuel with
  | nil =>
    cases fuel with
    | zero => omega
    | succ n => simp [writeContents, dataLines]
  | cons b t ih =>
    cases fuel with
    | zero => simp at h
    | succ n =>
      have ht : t.length < n := by simpa using h
      simp [writeContents, dataLines, ih n ht]

/-- When the read behind the bytes fails, no number of iterations leaves the loop. -/
theorem writeContents_of_read_failure (image : List Byte) (fuel : Nat) :
    writeContents fuel ⟨image, true⟩ = none := by
  induction fuel generalizing image with
  | zero => rfl
  | succ n ih =>
    cases image with
    | nil => simp [writeContents, ih]
    | cons b t => simp [writeContents, ih]

/-- When `start_addr` and the block have room, line 80 formats from left to right,
the reads succeed and the iterations suffice, the run ends by the return that
`main` describes. -/
theorem run_of_benign (fuel : Nat) (argv : List CString) (fs : FileSys) (env : Env)
    (p : Host)
    (hs : storedBytes (getStartAddr argv).1 ≤ START_ADDR_SIZE)
    (hn : deriveName (argv.getD 1 []) p = some (outputFileName (argv.getD 1 [])))
    (hr : p.read_fails = false)
    (hf : ∀ fs1, fs.fopen_w (outputFileName (argv.getD 1 [])) = some fs1 →
      ((fs1.contents (argv.getD 1 [])).getD []).length < fuel) :
    run fuel argv fs env p = some (.returned (main argv fs env)) := by
  have hs2 : ¬ START_ADDR_SIZE < storedBytes (getStartAddr argv).1 := by omega
  by_cases h : argv.length < 2
  · rw [main_usage argv fs env h]
    unfold run
    rw [if_pos h]
  · cases hc : fs.canRead (argv.getD 1 [])
    · rw [main_unreadable argv fs env h hc]
      unfold run
      rw [if_neg h]
      simp only []
      rw [if_pos hc]
    · cases hm : env.malloc_ok
      · rw [main_alloc_failed argv fs env h hc hm]
        unfold run
        rw [if_neg h]
        simp only []
        rw [if_neg (by rw [hc]; decide), if_neg hs2, if_pos hm]
      · cases hw : fs.fopen_w (outputFileName (argv.getD 1 []))
        · rw [main_unwritable argv fs env h hc hm hw]
          unfold run
          rw [if_neg h]
          simp only []
          rw [if_neg (by rw [hc]; decide), if_neg hs2, if_neg (by rw [hm]; decide), hn]
          simp only []
          rw [hw]
        · rw [main_converted argv fs _ env h hc hm hw]
          unfold run
          rw [if_neg h]
          simp only []
          rw [if_neg (by rw [hc]; decide), if_neg hs2, if_neg (by rw [hm]; decide), hn]
          simp only []
          rw [hw]
          simp only []
          rw [hr, writeContents_of_eof _ _ (hf _ hw)]
          rfl

/-- A run that gets as far as the loop of lines 93-99 with a failing read does not
end, whatever the number of iterations. -/
theorem run_of_read_failure (fuel : Nat) (argv : List CString) (fs fs1 : FileSys) (env : Env)
    (p : Host) (name : CString)
    (h : ¬ argv.length < 2) (hc : fs.canRead (argv.getD 1 []) = true)
    (hs : storedBytes (getStartAddr argv).1 ≤ START_ADDR_SIZE)
    (hm : env.malloc_ok = true)
    (hn : deriveName (argv.getD 1 []) p = some name)
    (hw : fs.fopen_w name = some fs1)
    (hr : p.read_fails = true) :
    run fuel argv fs env p = none := by
  have hs2 : ¬ START_ADDR_SIZE < storedBytes (getStartAddr argv).1 := by omega
  unfold run
  rw [if_neg h]
  simp only []
  rw [if_neg (by rw [hc]; decide), if_neg hs2, if_neg (by rw [hm]; decide), hn]
  simp only []
  rw [hw]
  simp only []
  rw [hr, writeContents_of_read_failure]

/-- The run for `prog.bin` with room in the block is the one `main` describes. -/
theorem run_of_room_example :
    run 2 ["vmem".toList, "prog.bin".toList] sampleFiles (Env.withRests [] []) (Host.plain 64)
      = some (Outcome.returned
          (main ["vmem".toList, "prog.bin".toList] sampleFiles (Env.withRests [] []))) := by
  decide

/-! ## Reading the inputs back -/

/-- Within one environment the conversion is injective on images and
16-bit start addresses: equal output texts come from equal images and equal
start addresses. -/
theorem convert_injective_in_env (env : Env) (image1 image2 : List Byte) (a1 a2 : Nat)
    (h1 : a1 ≤ 0xFFFF) (h2 : a2 ≤ 0xFFFF)
    (h : convert image1 (sprintf_0x 4 a1) env = convert image2 (sprintf_0x 4 a2) env) :
    image1 = image2 ∧ a1 = a2 := by
  have k1 : a1 < 65536 := by omega
  have k2 : a2 < 65536 := by omega
  unfold convert at h
  have hlen : (dataLines image1).length = (dataLines image2).length := by
    have := congrArg List.length h
    rw [List.length_append, List.length_append, vectorBlock_length a1 k1,
      vectorBlock_length a2 k2] at this
    omega
  obtain ⟨hd, hv⟩ := List.append_inj h hlen
  refine ⟨dataLines_inj _ _ hd, ?_⟩
  rw [sprintf_04x_word a1 k1, sprintf_04x_word a2 k2] at hv
  simp [vectorBlock, resetLine] at hv
  obtain ⟨e1, e0, e3, e2⟩ := hv
  have f0 := hexDigit_inj _ _ (by omega) (by omega) e0
  have f1 := hexDigit_inj _ _ (by omega) (by omega) e1
  have f2 := hexDigit_inj _ _ (by omega) (by omega) e2
  have f3 := hexDigit_inj _ _ (by omega) (by omega) e3
  omega

theorem hexDigit_ne_at (d : Nat) (h : d < 16) : hexDigit d ≠ '@' := by
  interval_cases d <;> decide

/-- The image can be read back from the text whatever the two environments are:
the vector block starts with `@`, which no data line does. -/
theorem convert_image_injective (env1 env2 : Env) (s1 s2 : CString) (i1 i2 : List Byte)
    (h : convert i1 s1 env1 = convert i2 s2 env2) : i1 = i2 := by
  unfold convert at h
  have hv : ∀ (s : CString) (env : Env), ∃ t, vectorBlock s env = '@' :: t := by
    intro s env
    exact ⟨_, by simp [vectorBlock, VECTOR_HEADER]; rfl⟩
  induction i1 generalizing i2 with
  | nil =>
    cases i2 with
    | nil => rfl
    | cons b t =>
      obtain ⟨r, hr⟩ := hv s1 env1
      rw [hr] at h
      simp only [dataLines, sprintf_02x_byte b.val b.isLt, List.nil_append, List.cons_append,
        List.cons.injEq] at h
      exact absurd h.1.symm (hexDigit_ne_at _ (by have := b.isLt; omega))
  | cons b1 t1 ih =>
    cases i2 with
    | nil =>
      obtain ⟨r, hr⟩ := hv s2 env2
      rw [hr] at h
      simp only [dataLines, sprintf_02x_byte b1.val b1.isLt, List.nil_append, List.cons_append,
        List.cons.injEq] at h
      exact absurd h.1 (hexDigit_ne_at _ (by have := b1.isLt; omega))
    | cons b2 t2 =>
      simp only [dataLines, sprintf_02x_byte b1.val b1.isLt, sprintf_02x_byte b2.val b2.isLt,
        List.cons_append, List.nil_append, List.cons.injEq, true_and, List.append_assoc] at h
      obtain ⟨h1, h2, h3⟩ := h
      have e1 := hexDigit_inj _ _ (by have := b1.isLt; omega) (by have := b2.isLt; omega) h1
      have e2 := hexDigit_inj _ _ (by omega) (by omega) h2
      have hb : b1 = b2 := by
        apply Fin.ext
        omega
      rw [hb, ih t2 h3]

/-! ## The claims -/

/-- Claim C1, evaluated where it fails: for the start address `0x0400`, on a run
where the byte behind the two characters copied into `high_addr` holds `X`, the
RESET line written is `00 04X //RESET Vector`; it is not the low byte, a space,
the high byte, a space and the comment. -/
theorem C1_reset_line_unterminated :
    resetLine (sprintf_0x 4 0x0400) (Env.withRests ['X'] [])
        = "00 04X //RESET Vector\n".toList
      ∧ resetLine (sprintf_0x 4 0x0400) (Env.withRests ['X'] [])
        ≠ hexByte (0x0400 % 256) ++ [' '] ++ hexByte (0x0400 / 256 % 256)
            ++ " //RESET Vector\n".toList := by
  decide

/-- Claim C2: for every image, every contents of `start_addr`, every
environment and every index below the length of the image, the line of the
output at that index is the byte at that index as two lowercase zero-padded
hexadecimal digits. -/
theorem C2_data_line (image : List Byte) (start_addr : CString) (env : Env)
    (i : Nat) (h : i < image.length) :
    (lines (convert image start_addr env))[i]? = some (hexByte (image[i]).val) := by
  unfold convert
  rw [lines_dataLines_append, List.getElem?_append_left (by simpa using h)]
  rw [List.getElem?_map, List.getElem?_eq_getElem h]
  have hb := (image[i]).isLt
  simp only [Option.map_some', sprintf_02x_byte _ hb, hexByte]
  rw [hexDigit_eq_lower _ (by omega), hexDigit_eq_lower _ (by omega)]

/-- Claim C2 at the image `00 ff 0a`: the line at index 1 is `ff`. -/
theorem C2_data_line_witness :
    1 < ([0x00, 0xff, 0x0a] : List Byte).length
      ∧ (lines (convert [0x00, 0xff, 0x0a] "0400".toList (Env.withRests [] [])))[1]?
          = some (hexByte (([0x00, 0xff, 0x0a] : List Byte)[1]).val) :=
  ⟨by decide, C2_data_line [0x00, 0xff, 0x0a] "0400".toList (Env.withRests [] []) 1 (by decide)⟩

/-- Claim C3, evaluated where it fails: for the empty image and the default
start address, on a run where the byte behind the two characters copied into
`low_addr` holds a newline, the output has five lines, not four. -/
theorem C3_newline_behind_field :
    lines (convert [] (sprintf_0x 4 DEFAULT_START_ADDR) (Env.withRests [] ['\n']))
      = ["@FFFA //Interrupt and Reset Vectors:".toList,
         "00 90 //NMI Vector".toList,
         "00".toList,
         " 00 //RESET Vector".toList,
         "00 A0 //INTERRUPT Vector".toList] := by
  decide

/-- Claim C4 as amended: for every image, every contents of `start_addr` and
every environment, the line after the header is `00 90 //NMI Vector` and the
last line is `00 A0 //INTERRUPT Vector`, with an uppercase `A`. -/
theorem C4_fixed_vector_lines (image : List Byte) (start_addr : CString) (env : Env) :
    (lines (convert image start_addr env))[image.length + 1]?
        = some "00 90 //NMI Vector".toList
      ∧ (lines (convert image start_addr env)).getLast?
        = some "00 A0 //INTERRUPT Vector".toList := by
  unfold convert
  rw [lines_dataLines_append, lines_vectorBlock]
  constructor
  · rw [List.getElem?_append_right (by simp)]
    simp
  · have e : ∀ (pre : List (List Char)) (a b x : List Char) (l : List (List Char)),
        (pre ++ a :: b :: (l ++ [x])).getLast? = some x := by
      intro pre a b x l
      have : pre ++ a :: b :: (l ++ [x]) = (pre ++ a :: b :: l) ++ [x] := by simp
      rw [this, List.getLast?_concat]
    exact e _ _ _ _ _

/-- Claim C4 as stated fails: for the empty image and the default start address
the INTERRUPT line is `00 A0 //INTERRUPT Vector`, not `00 a0 //INTERRUPT Vector`. -/
theorem C4_interrupt_line_uppercase :
    (lines (convert [] (sprintf_0x 4 DEFAULT_START_ADDR) (Env.withRests [] [])))[3]?
        = some "00 A0 //INTERRUPT Vector".toList
      ∧ (lines (convert [] (sprintf_0x 4 DEFAULT_START_ADDR) (Env.withRests [] [])))[3]?
        ≠ some "00 a0 //INTERRUPT Vector".toList := by
  decide

/-- Claim C6, evaluated where it fails: a run with only the input path, on which
the byte behind the two characters copied into `low_addr` holds `@`, writes the
RESET line `00@ 00 //RESET Vector`, not `00 00 //RESET Vector`. -/
theorem C6_default_run_unterminated :
    ((main ["vmem".toList, "prog.bin".toList] sampleFiles (Env.withRests [] ['@'])).fs.contents
        "prog.vmem".toList)
      = some (("a9\n@FFFA //Interrupt and Reset Vectors:\n00 90 //NMI Vector\n"
          ++ "00@ 00 //RESET Vector\n00 A0 //INTERRUPT Vector\n").toList.map charByte) := by
  decide

/-- Claim C7, evaluated where it fails: for the 24-character path
`my_6502_test_program.bin` line 72 asks for 19 bytes; with the 5 further bytes
usable behind them `strcpy` stores 25 bytes, past the end of the block, and no
name is settled, where the claim says `my_6502_test_program.vmem`.  With room
in the block, a `sprintf` that empties its destination first gives `.vmem` for
`prog.bin`, where the claim says `prog.vmem`. -/
theorem C7_name_not_derived :
    (∀ beyond : Nat, mallocSize "my_6502_test_program.bin".toList beyond = 19)
      ∧ storedBytes "my_6502_test_program.bin".toList = 25
      ∧ deriveName "my_6502_test_program.bin".toList (Host.plain 5) = none
      ∧ claimedOutputName "my_6502_test_program.bin".toList
          = "my_6502_test_program.vmem".toList
      ∧ deriveName "prog.bin".toList (Host.fortified 64) = some ".vmem".toList
      ∧ claimedOutputName "prog.bin".toList = "prog.vmem".toList := by
  refine ⟨fun _ => rfl, ?_, ?_, ?_, ?_, ?_⟩ <;> decide

/-- Claim C8, evaluated where it fails: `--start-addr 0x0400` sets the start
address to `0400`, and on a run where the bytes behind the two fields hold `!`
and `#` the RESET line written is `00! 04# //RESET Vector`, not `00 04`. -/
theorem C8_parsed_run_unterminated :
    getStartAddr ["vmem".toList, "prog.bin".toList, START_ADDR_OPTION, "0x0400".toList]
        = ("0400".toList, [])
      ∧ ((main ["vmem".toList, "prog.bin".toList, START_ADDR_OPTION, "0x0400".toList]
            sampleFiles (Env.withRests ['#'] ['!'])).fs.contents "prog.vmem".toList)
        = some (("a9\n@FFFA //Interrupt and Reset Vectors:\n00 90 //NMI Vector\n"
            ++ "00! 04# //RESET Vector\n00 A0 //INTERRUPT Vector\n").toList.map charByte) := by
  decide

/-- Claim C9, evaluated where it fails: when the input path opens and every read
of it fails, as for a directory, no number of iterations of the loop of lines
93-99 ends the run, so `main` does not return; and for a path of 28 characters
with one byte usable behind the 23 asked for, `strcpy` stores past the end of
the block and the run does not end by a return of `main`. -/
theorem C9_run_without_return :
    (∀ fuel : Nat,
        run fuel ["vmem".toList, "src".toList] directoryFiles (Env.withRests [] [])
          (Host.failingRead 64) = none)
      ∧ (∀ fuel : Nat,
        run fuel ["vmem".toList, "my_6502_test_program_v02.bin".toList] longNameFiles
          (Env.withRests [] []) (Host.plain 1) = some Outcome.overrun) := by
  constructor
  · intro fuel
    exact run_of_read_failure fuel _ directoryFiles (directoryFiles.store "src.vmem".toList [])
      _ _ "src.vmem".toList (by decide) (by decide) (by decide) rfl (by decide) (by decide) rfl
  · intro fuel
    rfl

/-- Claim C10: when the input path cannot be opened for reading, the files after
the run are the files before it, the status is 0, and with an input path among
the arguments the run prints `no such file as:` and the path. -/
theorem C10_unreadable (argv : List CString) (fs : FileSys) (env : Env)
    (h : fs.canRead (argv.getD 1 []) = false) :
    (main argv fs env).fs = fs
      ∧ (main argv fs env).status = 0
      ∧ (2 ≤ argv.length →
          (main argv fs env).stdout
            = "no such file as: ".toList ++ argv.getD 1 [] ++ ['\n']) := by
  by_cases hlen : argv.length < 2
  · rw [main_usage argv fs env hlen]
    exact ⟨rfl, rfl, fun h2 => absurd hlen (by omega)⟩
  · rw [main_unreadable argv fs env hlen h]
    exact ⟨rfl, rfl, fun _ => rfl⟩

/-- Claim C10 at a path with no file behind it: the files stay as they were and
the run prints `no such file as: missing.bin`. -/
theorem C10_unreadable_witness :
    (main ["vmem".toList, "missing.bin".toList] sampleFiles (Env.withRests [] [])).fs
        = sampleFiles
      ∧ (main ["vmem".toList, "missing.bin".toList] sampleFiles (Env.withRests [] [])).stdout
        = "no such file as: missing.bin\n".toList :=
  have h := C10_unreadable ["vmem".toList, "missing.bin".toList] sampleFiles
    (Env.withRests [] []) (by decide)
  ⟨h.1, h.2.2 (by decide)⟩

/-- Claim C11, evaluated where it fails: `--start-addr 12345` makes the start
address `0x12345`, above `0xFFFF`; its `%04x` text has five digits and with its
terminator takes six bytes, one more than `start_addr` has; the two fields of
the RESET line are `34` and `12`, not the low byte `45` and the high byte `23`. -/
theorem C11_start_addr_above_16_bits :
    sscanf_x "12345".toList = some 0x12345
      ∧ (getStartAddr ["vmem".toList, "prog.bin".toList, START_ADDR_OPTION, "12345".toList]).1
          = "12345".toList
      ∧ START_ADDR_SIZE < storedBytes
          (getStartAddr ["vmem".toList, "prog.bin".toList, START_ADDR_OPTION, "12345".toList]).1
      ∧ resetLine "12345".toList (Env.withRests [] []) = "34 12 //RESET Vector\n".toList
      ∧ hexByte (0x12345 % 256) = "45".toList
      ∧ hexByte (0x12345 / 256 % 256) = "23".toList := by
  decide

/-- Claim C12, evaluated where it fails: for the path `prog.bin`, of eight
characters, `malloc` is asked for three bytes; `strcpy` then stores nine and the
derived name `prog.vmem` takes ten, where the claim promises fourteen. -/
theorem C12_allocation_too_small :
    (∀ beyond : Nat, mallocSize "prog.bin".toList beyond = 3)
      ∧ storedBytes "prog.bin".toList = 9
      ∧ storedBytes (outputFileName "prog.bin".toList) = 10
      ∧ ¬ ("prog.bin".toList.length + 5 + 1 ≤ 3) := by
  refine ⟨fun _ => rfl, ?_, ?_, ?_⟩ <;> decide

/-- Claim C14: for every argument list with fewer than four entries, or whose
entry at index 2 is not exactly `--start-addr`, `start_addr` holds the default
`0000` and lines 56-69 print nothing. -/
theorem C14_option_not_recognised (argv : List CString)
    (h : argv.length < 4 ∨ argv.getD 2 [] ≠ START_ADDR_OPTION) :
    getStartAddr argv = (sprintf_0x 4 DEFAULT_START_ADDR, [])
      ∧ sprintf_0x 4 DEFAULT_START_ADDR = "0000".toList := by
  refine ⟨?_, by decide⟩
  unfold getStartAddr
  by_cases hl : 4 ≤ argv.length
  · have h2 : argv.getD 2 [] ≠ START_ADDR_OPTION := by
      rcases h with h | h
      · omega
      · exact h
    rw [if_pos hl, if_neg h2]
  · rw [if_neg hl]

/-- Claim C14 at an argument list where `--start-addr` comes one place late. -/
theorem C14_option_not_recognised_witness :
    getStartAddr ["vmem".toList, "prog.bin".toList, "-v".toList, START_ADDR_OPTION,
        "0400".toList] = ("0000".toList, []) :=
  (C14_option_not_recognised ["vmem".toList, "prog.bin".toList, "-v".toList,
    START_ADDR_OPTION, "0400".toList] (Or.inr (by decide))).1

end Vmem
